import Mathlib

/-!
Verification of the nb-logger repository (src/logger.go) against its
natural-language specification.  The Go source is shallowly embedded:
strings become lists of ASCII byte values (Nat), the mutable append-only
buffer of formatHeader becomes list concatenation, the bounded channel
becomes a FIFO list of commands, and the writer goroutine becomes a
function folding over that list.  Definitions are translated from the
source; definitions whose names contain the word spec or claim are
instead written from the wording of the specification and compared with
the source-translated ones.
-/

namespace NbLogger

/-- ASCII byte list of a string literal, used to transcribe Go string literals. -/
def strBytes (s : String) : List Nat := s.data.map Char.toNat

/-- Severity constant Trace from the iota block at src/logger.go lines 24-30. -/
def Trace : Nat := 0

/-- Severity constant Debug. -/
def Debug : Nat := 1

/-- Severity constant Info. -/
def Info : Nat := 2

/-- Severity constant Warn. -/
def Warn : Nat := 3

/-- Severity constant Error. -/
def Error : Nat := 4

/-- Flag constant Ldate from the shifted-iota block at src/logger.go lines 32-42. -/
def Ldate : Nat := 1

/-- Flag constant Ltime. -/
def Ltime : Nat := 2

/-- Flag constant Lmicroseconds. -/
def Lmicroseconds : Nat := 4

/-- Flag constant Llongfile. -/
def Llongfile : Nat := 8

/-- Flag constant Lshortfile. -/
def Lshortfile : Nat := 16

/-- Flag constant LUTC. -/
def LUTC : Nat := 32

/-- Flag constant Lblocking. -/
def Lblocking : Nat := 64

/-- Flag constant Lstdout. -/
def Lstdout : Nat := 128

/-- Flag constant LstdFlags, the union of Ldate and Ltime. -/
def LstdFlags : Nat := Ldate ||| Ltime

/-- Command tag for a write command (src/logger.go lines 44-47). -/
def write : Nat := 0

/-- Command tag for the terminate command. -/
def exit : Nat := 1

/-- Wall-clock fields of a Go time.Time as observed through Date, Clock and
Nanosecond in some location: year, month (1-12), day, hour, minute, second,
nanosecond. -/
structure DateTime where
  year : Nat
  month : Nat
  day : Nat
  hour : Nat
  minute : Nat
  second : Nat
  nanosecond : Nat
deriving DecidableEq

/-- A Go time.Time value, modelled by the two field views formatHeader can
observe: the fields in the current location of the value (what Date and Clock
return on it directly) and the fields after conversion to UTC. -/
structure GoTime where
  cur : DateTime
  utc : DateTime
deriving DecidableEq

/-- The UTC method of time.Time: afterwards both views are the UTC fields. -/
def GoTime.UTC (t : GoTime) : GoTime := ⟨t.utc, t.utc⟩

/-- levelStringMap from src/logger.go lines 63-69.  Go map lookup of a
missing key yields the empty string. -/
def levelStringMap (level : Nat) : List Nat :=
  if level = Trace then strBytes ("[TRACE] ")
  else if level = Debug then strBytes ("[DEBUG] ")
  else if level = Info then strBytes ("[INFO]  ")
  else if level = Warn then strBytes ("[WARN]  ")
  else if level = Error then strBytes ("[ERROR] ")
  else []

/-- Loop of itoa (src/logger.go lines 116-130) made structurally recursive on
a fuel argument so that the kernel can evaluate it.  The loop runs while
10 <= i or 1 < wid, each iteration replacing i by i / 10 and wid by wid - 1
and emitting the byte of the digit i mod 10 into the scratch array from the
right; the returned list is the emitted slice in output order.  The measure
i + wid.toNat strictly decreases at every iteration (lemma itoaGo_irrel), so
any fuel above it never reaches the zero case. -/
def itoaGo (fuel : Nat) (i : Nat) (wid : Int) : List Nat :=
  match fuel with
  | 0 => []
  | fuel + 1 =>
    if 10 ≤ i ∨ 1 < wid then itoaGo fuel (i / 10) (wid - 1) ++ [48 + i % 10]
    else [48 + i]

/-- itoa from src/logger.go lines 116-130: the bytes it appends to the
caller buffer.  The initial fuel i + wid.toNat + 1 strictly exceeds the
number of loop iterations. -/
def itoa (i : Nat) (wid : Int) : List Nat := itoaGo (i + wid.toNat + 1) i wid

/-- Fueled standard decimal representation, most significant digit first,
written from the wording of the specification (the plain decimal digits of
a number, no padding).  Byte 48 is the zero digit. -/
def decRepGo (fuel i : Nat) : List Nat :=
  match fuel with
  | 0 => []
  | fuel + 1 =>
    if i < 10 then [48 + i] else decRepGo fuel (i / 10) ++ [48 + i % 10]

/-- Standard decimal ASCII representation of a number, written from the
wording of the specification.  Fuel i + 1 always suffices. -/
def decRep (i : Nat) : List Nat := decRepGo (i + 1) i

/-- Decimal representation left-padded with zero digits to width w, written
from the wording of the specification (zero-padded fixed-width field). -/
def padDec (w i : Nat) : List Nat :=
  List.replicate (w - (decRep i).length) 48 ++ decRep i

/-- Downward scan of the Lshortfile loop in formatHeader (src/logger.go
lines 164-171): for indices i, i-1, ..., 1 of the file path, if the byte at
the index is a slash (byte 47) return the suffix after it, otherwise keep
scanning; index 0 is never inspected and the scan then returns the whole
path. -/
def scanShortGo (file : List Nat) : Nat → List Nat
  | 0 => file
  | i + 1 =>
    if file.getD (i + 1) 0 = 47 then file.drop (i + 2) else scanShortGo file i

/-- The short-file stripping performed by formatHeader, starting the scan at
the last index of the path. -/
def scanShort (file : List Nat) : List Nat := scanShortGo file (file.length - 1)

/-- Suffix of a byte list after its last slash (byte 47), written from the
wording of the specification: the suffix after the last slash. -/
def afterLastSlash (l : List Nat) : List Nat :=
  (l.reverse.takeWhile (fun c => c ≠ 47)).reverse

/-- Basename as the specification describes the code: the suffix after the
last slash found at a positive index; a path whose only slash is at index 0,
or which has no slash, is left unchanged. -/
def specShort : List Nat → List Nat
  | [] => []
  | c :: rest => if 47 ∈ rest then afterLastSlash (c :: rest) else c :: rest

/-- Basename exactly as the claim words it: the suffix after the last slash,
for every input path. -/
def basenameClaim (file : List Nat) : List Nat :=
  if 47 ∈ file then afterLastSlash file else file

/-- formatHeader from src/logger.go lines 132-178, translated branch by
branch; the append-only buffer becomes list concatenation.  Byte values:
47 slash, 58 colon, 32 space, 46 dot. -/
def formatHeader (flags level : Nat) (t : GoTime) (file : List Nat) (line : Nat) : List Nat :=
  let buf := levelStringMap level
  let buf :=
    if flags &&& (Ldate ||| Ltime ||| Lmicroseconds) ≠ 0 then
      let t := if flags &&& LUTC ≠ 0 then t.UTC else t
      let buf :=
        if flags &&& Ldate ≠ 0 then
          buf ++ itoa t.cur.year 4 ++ [47] ++ itoa t.cur.month 2 ++ [47]
              ++ itoa t.cur.day 2 ++ [32]
        else buf
      if flags &&& (Ltime ||| Lmicroseconds) ≠ 0 then
        buf ++ itoa t.cur.hour 2 ++ [58] ++ itoa t.cur.minute 2 ++ [58]
            ++ itoa t.cur.second 2
            ++ (if flags &&& Lmicroseconds ≠ 0 then
                  [46] ++ itoa (t.cur.nanosecond / 1000) 6
                else [])
            ++ [32]
      else buf
    else buf
  if flags &&& (Lshortfile ||| Llongfile) ≠ 0 then
    let file := if flags &&& Lshortfile ≠ 0 then scanShort file else file
    buf ++ file ++ [58] ++ itoa line (-1) ++ strBytes (": ")
  else buf

/-- The widths at which formatHeader invokes itoa, listed in invocation
order; this mirrors the branch structure of formatHeader (the date fields at
widths 4, 2, 2, the clock fields at widths 2, 2, 2, the microsecond field at
width 6 and the line number at width -1). -/
def itoaWidths (flags : Nat) : List Int :=
  (if flags &&& (Ldate ||| Ltime ||| Lmicroseconds) ≠ 0 then
    (if flags &&& Ldate ≠ 0 then [4, 2, 2] else [])
    ++ (if flags &&& (Ltime ||| Lmicroseconds) ≠ 0 then
          [2, 2, 2] ++ (if flags &&& Lmicroseconds ≠ 0 then [6] else [])
        else [])
   else [])
  ++ (if flags &&& (Lshortfile ||| Llongfile) ≠ 0 then [-1] else [])

/-- Lines 202-208 of logging: the rendered message s (the result of the
Sprintf call) is appended to the header, and one newline byte (10) is
appended when s is empty or its last byte is not a newline. -/
def renderLine (flags level : Nat) (t : GoTime) (file : List Nat) (line : Nat)
    (s : List Nat) : List Nat :=
  let buf := formatHeader flags level t file line ++ s
  if s = [] ∨ s.getLast? ≠ some 10 then buf ++ [10] else buf

/-- A line ends with exactly one trailing newline: its last byte is a
newline and the byte before it, if any, is not.  Written from the wording
of the claim. -/
def endsWithOneNewline (l : List Nat) : Prop :=
  l.getLast? = some 10 ∧ l.dropLast.getLast? ≠ some 10

instance (l : List Nat) : Decidable (endsWithOneNewline l) := by
  unfold endsWithOneNewline
  infer_instance

/-- logMessage from src/logger.go lines 49-52. -/
structure LogMessage where
  cmd : Nat
  buf : List Nat
deriving DecidableEq

/-- BasicLogger from src/logger.go lines 54-61.  The io.Writer sink is
modelled by the list of byte lines written to it so far together with an
oracle of the error results its future Write calls will return (the logger
code discards these), and by the open state of the underlying file handle;
the bounded channel is modelled as the FIFO list of commands currently
queued, head oldest.  The mutex and wait group serialize execution and are
implicit in the sequential model. -/
structure BasicLogger where
  level : Nat
  flags : Nat
  sink : List (List Nat)
  sinkErrs : List Bool
  sinkOpen : Bool
  ch : List LogMessage
deriving DecidableEq

/-- NewLogger from src/logger.go lines 74-103.  The os.OpenFile call is an
external collaborator and is modelled by its outcome: none when the
destination cannot be opened (NewLogger then returns the error string and no
logger), some errs when it opens, errs being the error results the sink will
return on successive writes.  bufferSize is the channel capacity; capacity
only determines when an enqueue blocks, which the sequential model does not
observe, so the queue is modelled unbounded. -/
def NewLogger (openResult : Option (List Bool)) (level bufferSize flags : Nat) :
    Except (List Nat) BasicLogger :=
  match openResult with
  | none => Except.error (strBytes ("file creation fail"))
  | some errs =>
      Except.ok
        { level := level, flags := flags, sink := [], sinkErrs := errs,
          sinkOpen := true, ch := [] }

/-- logging from src/logger.go lines 180-220.  The Sprintf result is the
parameter s; runtime.Caller is modelled by the call site carrying the file
and line values it would report, which are consulted only when a call-site
flag is set (otherwise the Go locals keep their zero values, empty string
and 0).  In async mode the command is enqueued; in blocking mode the line is
written to the sink directly and the error result of the Write call is
consumed and discarded. -/
def logging (lg : BasicLogger) (level : Nat) (t : GoTime) (callerFile : List Nat)
    (callerLine : Nat) (s : List Nat) : BasicLogger :=
  if lg.level > level then lg
  else
    let file := if lg.flags &&& (Lshortfile ||| Llongfile) ≠ 0 then callerFile else []
    let line := if lg.flags &&& (Lshortfile ||| Llongfile) ≠ 0 then callerLine else 0
    let buf := renderLine lg.flags level t file line s
    if lg.flags &&& Lblocking = 0 then
      { lg with ch := lg.ch ++ [⟨write, buf⟩] }
    else
      { lg with sink := lg.sink ++ [buf], sinkErrs := lg.sinkErrs.tail }

/-- Observable effects of one logging call, in the order the source performs
them: the time.Now capture, the runtime.Caller capture, the Sprintf plus
header formatting, and the enqueue or the direct sink write. -/
inductive Effect where
  | captureTime
  | captureCaller
  | format
  | enqueue (buf : List Nat)
  | sinkWrite (buf : List Nat)
deriving DecidableEq

/-- Effect trace of logging (src/logger.go lines 180-220): nothing at all
when the level gate rejects; otherwise the timestamp capture, the caller
capture when a call-site flag is set, the formatting, and the enqueue or
direct write. -/
def loggingTrace (lg : BasicLogger) (level : Nat) (t : GoTime) (callerFile : List Nat)
    (callerLine : Nat) (s : List Nat) : List Effect :=
  if lg.level > level then []
  else
    let file := if lg.flags &&& (Lshortfile ||| Llongfile) ≠ 0 then callerFile else []
    let line := if lg.flags &&& (Lshortfile ||| Llongfile) ≠ 0 then callerLine else 0
    let buf := renderLine lg.flags level t file line s
    Effect.captureTime ::
      ((if lg.flags &&& (Lshortfile ||| Llongfile) ≠ 0 then [Effect.captureCaller] else [])
        ++ Effect.format ::
          (if lg.flags &&& Lblocking = 0 then [Effect.enqueue buf] else [Effect.sinkWrite buf]))

/-- server from src/logger.go lines 105-114, run on the queued commands:
the channel receive never reports a closed channel, so the worker writes the
buffer of every write command it dequeues, in order, consuming one sink
error result per write and discarding it, and stops at the first command
whose tag is not write (the terminate command) without writing.  An
exhausted queue leaves the worker blocked with the sink as accumulated. -/
def runServer (sink : List (List Nat)) (errs : List Bool) : List LogMessage → List (List Nat)
  | [] => sink
  | m :: rest =>
    if m.cmd = write then runServer (sink ++ [m.buf]) errs.tail rest
    else sink

/-- Close from src/logger.go lines 244-247: unconditionally sends the
terminate command (nil buffer) on the channel and waits on the wait group;
the wait is implicit in the sequential model. -/
def Close (lg : BasicLogger) : BasicLogger :=
  { lg with ch := lg.ch ++ [⟨exit, []⟩] }

/-- One leveled call of a single producer: the severity it passes, the
timestamp time.Now would capture, the call site runtime.Caller would report,
and the rendered message. -/
structure LogCall where
  level : Nat
  t : GoTime
  file : List Nat
  line : Nat
  msg : List Nat
deriving DecidableEq

/-- A single producer issuing its calls one after the other. -/
def issueAll (lg : BasicLogger) (calls : List LogCall) : BasicLogger :=
  calls.foldl (fun l c => logging l c.level c.t c.file c.line c.msg) lg

/-- The formatted lines of the admitted calls, in issue order: the expected
sink contents as the specification words the FIFO property. -/
def admittedLines (threshold flags : Nat) (calls : List LogCall) : List (List Nat) :=
  calls.filterMap (fun c =>
    if threshold > c.level then none
    else some (renderLine flags c.level c.t c.file c.line c.msg))

/-- The write commands a single producer enqueues for its admitted calls, in
issue order. -/
def admittedMsgs (threshold flags : Nat) (calls : List LogCall) : List LogMessage :=
  calls.filterMap (fun c =>
    if threshold > c.level then none
    else some ⟨write, renderLine flags c.level c.t c.file c.line c.msg⟩)

/-- The date and clock fields read the current-location view of the
timestamp, or the UTC view when the UTC flag is set; written from the
wording of the specification (apply UTC conversion first if the UTC flag is
set). -/
def effDT (flags : Nat) (t : GoTime) : DateTime :=
  if flags &&& LUTC ≠ 0 then t.utc else t.cur

/-- The date field as the specification words it: YYYY/MM/DD followed by a
space, each numeric field zero-padded to its fixed width. -/
def dateField (d : DateTime) : List Nat :=
  padDec 4 d.year ++ [47] ++ padDec 2 d.month ++ [47] ++ padDec 2 d.day ++ [32]

/-- The clock field as the specification words it: HH:MM:SS, optionally
followed by a dot and exactly six zero-padded digits of microseconds, then a
space. -/
def clockField (flags : Nat) (d : DateTime) : List Nat :=
  padDec 2 d.hour ++ [58] ++ padDec 2 d.minute ++ [58] ++ padDec 2 d.second
    ++ (if flags &&& Lmicroseconds ≠ 0 then [46] ++ padDec 6 (d.nanosecond / 1000) else [])
    ++ [32]

/-- The call-site field as the specification words it: the source path,
stripped to its basename when the short flag is set, followed by a colon,
the line number without zero-padding, a colon and a space. -/
def fileField (flags : Nat) (file : List Nat) (line : Nat) : List Nat :=
  if flags &&& (Lshortfile ||| Llongfile) ≠ 0 then
    (if flags &&& Lshortfile ≠ 0 then specShort file else file)
      ++ [58] ++ decRep line ++ strBytes (": ")
  else []

/-- A fixed timestamp used by concrete witnesses: its current-location view
and its UTC view differ. -/
def t0 : GoTime := ⟨⟨2024, 1, 2, 3, 4, 5, 6789⟩, ⟨2023, 12, 31, 22, 59, 58, 6789⟩⟩

/-- A concrete synchronous logger (Lblocking set) used by concrete
witnesses. -/
def lgSyncW : BasicLogger :=
  { level := Trace, flags := Lblocking, sink := [], sinkErrs := [],
    sinkOpen := true, ch := [] }

/-- A concrete asynchronous logger at threshold Info used by concrete
witnesses. -/
def lgAsyncW : BasicLogger :=
  { level := Info, flags := 0, sink := [], sinkErrs := [],
    sinkOpen := true, ch := [] }

/-- A concrete asynchronous logger with two pending write commands, used by
concrete witnesses. -/
def lgPendingW : BasicLogger :=
  { level := Info, flags := 0, sink := [[100]], sinkErrs := [],
    sinkOpen := true, ch := [⟨write, [65]⟩, ⟨write, [66]⟩] }

/-- Three concrete calls of a single producer: an admitted Error call, a
rejected Trace call and an admitted Warn call. -/
def callsW : List LogCall :=
  [⟨Error, t0, [], 0, strBytes ("b")⟩,
   ⟨Trace, t0, [], 0, strBytes ("drop")⟩,
   ⟨Warn, t0, [], 0, strBytes ("c")⟩]

/-- The loop measure of itoa strictly decreases at every iteration. -/
lemma itoaMeasure_dec {i : Nat} {wid : Int} (h : 10 ≤ i ∨ 1 < wid) :
    i / 10 + (wid - 1).toNat < i + wid.toNat := by
  rcases h with h | h
  · have h1 : i / 10 < i := Nat.div_lt_self (by omega) (by omega)
    omega
  · have h1 : i / 10 ≤ i := Nat.div_le_self i 10
    omega

/-- itoaGo does not depend on the fuel once the fuel exceeds the loop
measure. -/
lemma itoaGo_irrel : ∀ (f g i : Nat) (wid : Int), i + wid.toNat < f → i + wid.toNat < g →
    itoaGo f i wid = itoaGo g i wid := by
  intro f
  induction f with
  | zero => intro g i wid hf; omega
  | succ f ih =>
    intro g i wid hf hg
    cases g with
    | zero => omega
    | succ g =>
      by_cases h : 10 ≤ i ∨ 1 < wid
      · have hd := itoaMeasure_dec h
        simp only [itoaGo, if_pos h]
        rw [ih g (i / 10) (wid - 1) (by omega) (by omega)]
      · simp only [itoaGo, if_neg h]

/-- One-step unfolding of itoaGo at positive fuel. -/
lemma itoaGo_succ (f i : Nat) (wid : Int) :
    itoaGo (f + 1) i wid
      = if 10 ≤ i ∨ 1 < wid then itoaGo f (i / 10) (wid - 1) ++ [48 + i % 10]
        else [48 + i] := rfl

/-- Unfolding equation of itoa, matching the source loop step. -/
lemma itoa_unfold (i : Nat) (wid : Int) :
    itoa i wid = if 10 ≤ i ∨ 1 < wid then itoa (i / 10) (wid - 1) ++ [48 + i % 10]
                 else [48 + i] := by
  by_cases h : 10 ≤ i ∨ 1 < wid
  · have hd := itoaMeasure_dec h
    rw [if_pos h]
    show itoaGo (i + wid.toNat + 1) i wid
        = itoaGo (i / 10 + (wid - 1).toNat + 1) (i / 10) (wid - 1) ++ [48 + i % 10]
    rw [itoaGo_succ, if_pos h,
      itoaGo_irrel (i + wid.toNat) (i / 10 + (wid - 1).toNat + 1) (i / 10) (wid - 1)
        (by omega) (by omega)]
  · rw [if_neg h]
    show itoaGo (i + wid.toNat + 1) i wid = [48 + i]
    rw [itoaGo_succ, if_neg h]

/-- decRepGo does not depend on the fuel once the fuel exceeds the number. -/
lemma decRepGo_irrel : ∀ (f g i : Nat), i < f → i < g → decRepGo f i = decRepGo g i := by
  intro f
  induction f with
  | zero => intro g i hf; omega
  | succ f ih =>
    intro g i hf hg
    cases g with
    | zero => omega
    | succ g =>
      by_cases h : i < 10
      · simp only [decRepGo, if_pos h]
      · have h1 : i / 10 < i := Nat.div_lt_self (by omega) (by omega)
        simp only [decRepGo, if_neg h]
        rw [ih g (i / 10) (by omega) (by omega)]

/-- One-step unfolding of decRepGo at positive fuel. -/
lemma decRepGo_succ (f i : Nat) :
    decRepGo (f + 1) i
      = if i < 10 then [48 + i] else decRepGo f (i / 10) ++ [48 + i % 10] := rfl

/-- Unfolding equation of decRep. -/
lemma decRep_unfold (i : Nat) :
    decRep i = if i < 10 then [48 + i] else decRep (i / 10) ++ [48 + i % 10] := by
  by_cases h : i < 10
  · rw [if_pos h]
    show decRepGo (i + 1) i = [48 + i]
    rw [decRepGo_succ, if_pos h]
  · have h1 : i / 10 < i := Nat.div_lt_self (by omega) (by omega)
    rw [if_neg h]
    show decRepGo (i + 1) i = decRepGo (i / 10 + 1) (i / 10) ++ [48 + i % 10]
    rw [decRepGo_succ, if_neg h,
      decRepGo_irrel i (i / 10 + 1) (i / 10) (by omega) (by omega)]

/-- A decimal representation has at least one digit. -/
lemma decRep_length_pos (i : Nat) : 0 < (decRep i).length := by
  rw [decRep_unfold]
  split <;> simp

/-- itoa emits the decimal digits of its argument left-padded with zero
digits to the requested width: the core correctness of the manual
reverse-digit emission loop. -/
lemma itoa_eq_pad : ∀ (m i : Nat) (wid : Int), i + wid.toNat ≤ m →
    itoa i wid = List.replicate (wid.toNat - (decRep i).length) 48 ++ decRep i := by
  intro m
  induction m with
  | zero =>
    intro i wid h
    have hi : i = 0 := by omega
    subst hi
    rw [itoa_unfold, decRep_unfold]
    rw [if_neg (by omega), if_pos (by omega)]
    have hw : wid.toNat = 0 := by omega
    simp [hw]
  | succ m ih =>
    intro i wid h
    rw [itoa_unfold]
    by_cases hc : 10 ≤ i ∨ 1 < wid
    · rw [if_pos hc]
      have hd := itoaMeasure_dec hc
      by_cases h10 : 10 ≤ i
      · have hdr : decRep i = decRep (i / 10) ++ [48 + i % 10] := by
          rw [decRep_unfold i, if_neg (by omega)]
        rw [ih (i / 10) (wid - 1) (by omega), hdr, List.append_assoc]
        congr 2
        simp only [List.length_append, List.length_cons, List.length_nil]
        omega
      · have hw : 1 < wid := by tauto
        have hi0 : i / 10 = 0 := Nat.div_eq_of_lt (by omega)
        have hd0 : decRep 0 = [48] := by rw [decRep_unfold]; simp
        have hdi : decRep i = [48 + i] := by rw [decRep_unfold, if_pos (by omega)]
        have him : i % 10 = i := Nat.mod_eq_of_lt (by omega)
        rw [hi0, ih 0 (wid - 1) (by omega), hd0, hdi, him]
        simp only [List.length_cons, List.length_nil, List.length_singleton]
        congr 1
        have h2 : wid.toNat - 1 = ((wid - 1).toNat - 1) + 1 := by omega
        rw [h2, List.replicate_succ']
    · rw [if_neg hc]
      push_neg at hc
      obtain ⟨hc1, hc2⟩ := hc
      have hdi : decRep i = [48 + i] := by rw [decRep_unfold, if_pos (by omega)]
      rw [hdi]
      have h1 : wid.toNat - [48 + i].length = 0 := by
        simp only [List.length_cons, List.length_nil]
        omega
      rw [h1]
      simp

/-- itoa equals the zero-padded decimal field of the given width. -/
lemma itoa_eq_padDec (i : Nat) (wid : Int) : itoa i wid = padDec wid.toNat i := by
  unfold padDec
  exact itoa_eq_pad (i + wid.toNat) i wid le_rfl

/-- itoa at width 4, as invoked for the year field. -/
lemma itoa_four (i : Nat) : itoa i 4 = padDec 4 i := itoa_eq_padDec i 4

/-- itoa at width 2, as invoked for the month, day, hour, minute and second
fields. -/
lemma itoa_two (i : Nat) : itoa i 2 = padDec 2 i := itoa_eq_padDec i 2

/-- itoa at width 6, as invoked for the microsecond field. -/
lemma itoa_six (i : Nat) : itoa i 6 = padDec 6 i := itoa_eq_padDec i 6

/-- Width 0 asks for no padding. -/
lemma padDec_zero (i : Nat) : padDec 0 i = decRep i := by
  unfold padDec
  simp

/-- itoa at width -1, as invoked for the line number: the plain unpadded
decimal representation. -/
lemma itoa_neg_one (i : Nat) : itoa i (-1) = decRep i := by
  rw [itoa_eq_padDec]
  exact padDec_zero i

/-- A number below the k-th power of ten has at most k decimal digits. -/
lemma decRep_length_le : ∀ (k : Nat), 1 ≤ k → ∀ i, i < 10 ^ k → (decRep i).length ≤ k := by
  intro k
  induction k with
  | zero => omega
  | succ k ih =>
    intro _ i hi
    rw [decRep_unfold]
    by_cases h10 : i < 10
    · rw [if_pos h10]
      simp
    · rw [if_neg h10]
      simp only [List.length_append, List.length_cons, List.length_nil]
      have hk : 1 ≤ k := by
        by_contra hk0
        have hk1 : k = 0 := by omega
        subst hk1
        simp [pow_one] at hi
        omega
      have hdiv : i / 10 < 10 ^ k := by
        rw [Nat.div_lt_iff_lt_mul (by omega)]
        calc i < 10 ^ (k + 1) := hi
          _ = 10 ^ k * 10 := by ring
      have := ih hk (i / 10) hdiv
      omega

/-- Length of the padded decimal field. -/
lemma padDec_length (w i : Nat) : (padDec w i).length = max w (decRep i).length := by
  unfold padDec
  simp only [List.length_append, List.length_replicate]
  omega

/-- The downward scan ignores a trailing non-slash byte except for carrying
it through to the suffix it returns. -/
lemma scanShortGo_snoc (c a : Nat) (l : List Nat) :
    ∀ i, i ≤ l.length → scanShortGo ((c :: l) ++ [a]) i = scanShortGo (c :: l) i ++ [a] := by
  intro i
  induction i with
  | zero => intro _; simp [scanShortGo]
  | succ i ih =>
    intro hi
    simp only [scanShortGo]
    have hget : ((c :: l) ++ [a]).getD (i + 1) 0 = (c :: l).getD (i + 1) 0 :=
      List.getD_append (c :: l) [a] 0 (i + 1) (by simp; omega)
    rw [hget]
    split
    · rw [List.drop_append_of_le_length (by simp; omega)]
    · exact ih (by omega)

/-- Unfolding equation of specShort on a nonempty path. -/
lemma specShort_cons (c : Nat) (rest : List Nat) :
    specShort (c :: rest) = if 47 ∈ rest then afterLastSlash (c :: rest) else c :: rest := rfl

/-- The downward scan of the short-file loop computes exactly the
specification-side basename: the suffix after the last slash found at a
positive index, the whole path when there is none. -/
lemma scanShort_cons (c : Nat) (rest : List Nat) :
    scanShortGo (c :: rest) rest.length = specShort (c :: rest) := by
  induction rest using List.reverseRecOn with
  | nil =>
    rw [specShort_cons]
    simp [scanShortGo]
  | append_singleton l a ihl =>
    have hlen : (l ++ [a]).length = l.length + 1 := by simp
    rw [hlen]
    simp only [scanShortGo]
    have hget : (c :: (l ++ [a])).getD (l.length + 1) 0 = a := by
      rw [show c :: (l ++ [a]) = (c :: l) ++ [a] from by simp]
      rw [List.getD_append_right (c :: l) [a] 0 (l.length + 1) (by simp)]
      simp
    rw [hget, specShort_cons]
    by_cases ha : a = 47
    · subst ha
      rw [if_pos rfl, if_pos (show (47 : Nat) ∈ l ++ [47] from by simp)]
      have hdrop : (c :: (l ++ [47])).drop (l.length + 2) = [] := by
        apply List.drop_eq_nil_of_le
        simp
      rw [hdrop]
      unfold afterLastSlash
      have hrev : (c :: (l ++ [47])).reverse = 47 :: (c :: l).reverse := by simp
      rw [hrev, List.takeWhile_cons]
      simp
    · rw [if_neg ha]
      have hsnoc : scanShortGo (c :: (l ++ [a])) l.length
          = scanShortGo (c :: l) l.length ++ [a] :=
        scanShortGo_snoc c a l l.length le_rfl
      rw [hsnoc, ihl, specShort_cons]
      by_cases hmem : (47 : Nat) ∈ l
      · rw [if_pos hmem, if_pos (show (47 : Nat) ∈ l ++ [a] from by simp [hmem])]
        unfold afterLastSlash
        have hrev : (c :: (l ++ [a])).reverse = a :: (c :: l).reverse := by simp
        rw [hrev, List.takeWhile_cons, if_pos (by simp [ha])]
        simp
      · rw [if_neg hmem, if_neg (show (47 : Nat) ∉ l ++ [a] from by simp [hmem]; omega)]
        simp

/-- The source short-file stripping agrees with the specification-side
basename on every path. -/
lemma scanShort_eq_specShort (file : List Nat) : scanShort file = specShort file := by
  cases file with
  | nil => rfl
  | cons c rest =>
    have h1 : (c :: rest).length - 1 = rest.length := by simp
    unfold scanShort
    rw [h1]
    exact scanShort_cons c rest

/-- A bitwise or is zero exactly when both operands are. -/
lemma lor_eq_zero (x y : Nat) : x ||| y = 0 ↔ x = 0 ∧ y = 0 := by
  constructor
  · intro h
    refine ⟨Nat.eq_of_testBit_eq fun i => ?_, Nat.eq_of_testBit_eq fun i => ?_⟩ <;>
    · have h2 := congrArg (fun n => Nat.testBit n i) h
      simp [Nat.testBit_or] at h2
      simp [h2]
  · rintro ⟨rfl, rfl⟩
    rfl

/-- When no date, time or microseconds bit is set, the date bit and the
clock bits are individually unset. -/
lemma and_datetime_split (flags : Nat)
    (h : flags &&& (Ldate ||| Ltime ||| Lmicroseconds) = 0) :
    flags &&& Ldate = 0 ∧ flags &&& (Ltime ||| Lmicroseconds) = 0 := by
  have hre : (Ldate ||| Ltime ||| Lmicroseconds) = Ldate ||| (Ltime ||| Lmicroseconds) := by
    decide
  rw [hre, Nat.and_or_distrib_left] at h
  exact (lor_eq_zero _ _).mp h

/-- formatHeader, re-expressed over the specification-side field
definitions: the level tag, the date field exactly when the date flag is
set, the clock field exactly when the time or the microseconds flag is set,
and the call-site field, all fields using standard zero-padded decimal
rendering and the specification-side basename. -/
lemma formatHeader_spec (flags lvl : Nat) (t : GoTime) (file : List Nat) (line : Nat) :
    formatHeader flags lvl t file line
      = levelStringMap lvl
        ++ (if flags &&& Ldate ≠ 0 then dateField (effDT flags t) else [])
        ++ (if flags &&& (Ltime ||| Lmicroseconds) ≠ 0 then clockField flags (effDT flags t) else [])
        ++ fileField flags file line := by
  by_cases h7 : flags &&& (Ldate ||| Ltime ||| Lmicroseconds) = 0
  · obtain ⟨hD, hC⟩ := and_datetime_split flags h7
    by_cases hF : flags &&& (Lshortfile ||| Llongfile) = 0 <;>
    by_cases hS : flags &&& Lshortfile = 0 <;>
    simp [formatHeader, fileField, h7, hD, hC, hF, hS,
      scanShort_eq_specShort, itoa_neg_one, List.append_assoc]
  · by_cases hU : flags &&& LUTC = 0 <;>
    by_cases hD : flags &&& Ldate = 0 <;>
    by_cases hC : flags &&& (Ltime ||| Lmicroseconds) = 0 <;>
    by_cases hM : flags &&& Lmicroseconds = 0 <;>
    by_cases hF : flags &&& (Lshortfile ||| Llongfile) = 0 <;>
    by_cases hS : flags &&& Lshortfile = 0 <;>
    simp [formatHeader, fileField, dateField, clockField, effDT, GoTime.UTC,
      h7, hU, hD, hC, hM, hF, hS, scanShort_eq_specShort,
      itoa_neg_one, itoa_two, itoa_four, itoa_six, List.append_assoc]

/-- Appending on the left preserves a known last element. -/
lemma getLast?_append_some (l r : List Nat) (a : Nat) (h : r.getLast? = some a) :
    (l ++ r).getLast? = some a := by
  rw [List.getLast?_append, h]
  rfl

/-- The call-site field always ends with a space byte. -/
lemma fileField_last (flags : Nat) (file : List Nat) (line : Nat)
    (h : flags &&& (Lshortfile ||| Llongfile) ≠ 0) :
    (fileField flags file line).getLast? = some 32 := by
  unfold fileField
  rw [if_pos h]
  apply getLast?_append_some
  decide

/-- The clock field always ends with a space byte. -/
lemma clockField_last (flags : Nat) (d : DateTime) :
    (clockField flags d).getLast? = some 32 := by
  unfold clockField
  apply getLast?_append_some
  rfl

/-- The date field always ends with a space byte. -/
lemma dateField_last (d : DateTime) : (dateField d).getLast? = some 32 := by
  unfold dateField
  apply getLast?_append_some
  rfl

/-- A level tag ends with a space byte, or is empty for an unknown level. -/
lemma levelStringMap_last (lvl : Nat) :
    (levelStringMap lvl).getLast? = some 32 ∨ levelStringMap lvl = [] := by
  unfold levelStringMap
  split_ifs <;> first | (left; decide) | (right; rfl)

/-- A formatted header ends with a space byte, or is empty when every flag
is unset and the level is unknown. -/
lemma formatHeader_last (flags lvl : Nat) (t : GoTime) (file : List Nat) (line : Nat) :
    (formatHeader flags lvl t file line).getLast? = some 32
    ∨ formatHeader flags lvl t file line = [] := by
  rw [formatHeader_spec]
  by_cases hF : flags &&& (Lshortfile ||| Llongfile) ≠ 0
  · left
    apply getLast?_append_some
    exact fileField_last flags file line hF
  · push_neg at hF
    have hFF : fileField flags file line = [] := by
      unfold fileField
      rw [if_neg (by simp [hF])]
    rw [hFF, List.append_nil]
    by_cases hC : flags &&& (Ltime ||| Lmicroseconds) ≠ 0
    · left
      rw [if_pos hC]
      apply getLast?_append_some
      exact clockField_last flags (effDT flags t)
    · rw [if_neg hC, List.append_nil]
      by_cases hD : flags &&& Ldate ≠ 0
      · left
        rw [if_pos hD]
        apply getLast?_append_some
        exact dateField_last (effDT flags t)
      · rw [if_neg hD, List.append_nil]
        exact levelStringMap_last lvl

/-- A formatted header never ends with a newline byte. -/
lemma formatHeader_not_nl (flags lvl : Nat) (t : GoTime) (file : List Nat) (line : Nat) :
    (formatHeader flags lvl t file line).getLast? ≠ some 10 := by
  rcases formatHeader_last flags lvl t file line with h | h <;> rw [h] <;> simp

/-- Appending two lists neither of which ends in a newline yields a list not
ending in a newline. -/
lemma getLast?_append_ne_nl (l r : List Nat) (hl : l.getLast? ≠ some 10)
    (hr : r.getLast? ≠ some 10) : (l ++ r).getLast? ≠ some 10 := by
  rw [List.getLast?_append]
  cases h : r.getLast? with
  | none =>
    simpa [Option.or] using hl
  | some a =>
    rw [h] at hr
    simpa [Option.or] using hr

/-- The header does not depend on the caller file and line when no call-site
flag is set. -/
lemma renderLine_caller (flags lvl : Nat) (t : GoTime) (f1 f2 : List Nat) (l1 l2 : Nat)
    (s : List Nat) (h : flags &&& (Lshortfile ||| Llongfile) = 0) :
    renderLine flags lvl t f1 l1 s = renderLine flags lvl t f2 l2 s := by
  unfold renderLine
  have hh : formatHeader flags lvl t f1 l1 = formatHeader flags lvl t f2 l2 := by
    rw [formatHeader_spec, formatHeader_spec]
    have hFF1 : fileField flags f1 l1 = [] := by
      unfold fileField
      rw [if_neg (by simp [h])]
    have hFF2 : fileField flags f2 l2 = [] := by
      unfold fileField
      rw [if_neg (by simp [h])]
    rw [hFF1, hFF2]
  rw [hh]

/-- Branch characterization of one logging call over the raw caller data. -/
lemma logging_eq (lg : BasicLogger) (lvl : Nat) (t : GoTime) (cf : List Nat) (cl : Nat)
    (s : List Nat) :
    logging lg lvl t cf cl s
      = if lg.level > lvl then lg
        else if lg.flags &&& Lblocking = 0 then
          { lg with ch := lg.ch ++ [⟨write, renderLine lg.flags lvl t cf cl s⟩] }
        else
          { lg with sink := lg.sink ++ [renderLine lg.flags lvl t cf cl s],
                    sinkErrs := lg.sinkErrs.tail } := by
  simp only [logging]
  by_cases hg : lg.level > lvl
  · rw [if_pos hg, if_pos hg]
  · rw [if_neg hg, if_neg hg]
    have hbuf : renderLine lg.flags lvl t
        (if lg.flags &&& (Lshortfile ||| Llongfile) ≠ 0 then cf else [])
        (if lg.flags &&& (Lshortfile ||| Llongfile) ≠ 0 then cl else 0) s
        = renderLine lg.flags lvl t cf cl s := by
      by_cases hP : lg.flags &&& (Lshortfile ||| Llongfile) ≠ 0
      · rw [if_pos hP, if_pos hP]
      · rw [if_neg hP, if_neg hP]
        push_neg at hP
        exact renderLine_caller lg.flags lvl t [] cf 0 cl s hP
    rw [hbuf]

/-- A worker run over write commands only writes them all, in order. -/
lemma runServer_writes : ∀ (q : List LogMessage) (errs : List Bool) (sink : List (List Nat)),
    (∀ m ∈ q, m.cmd = write) → runServer sink errs q = sink ++ q.map (fun m => m.buf) := by
  intro q
  induction q with
  | nil =>
    intro errs sink _
    simp [runServer]
  | cons m rest ih =>
    intro errs sink h
    have hm : m.cmd = write := h m (by simp)
    simp only [runServer, if_pos hm]
    rw [ih errs.tail (sink ++ [m.buf]) (fun x hx => h x (by simp [hx]))]
    simp [List.append_assoc]

/-- A worker run over write commands followed by a terminate command writes
exactly the earlier commands in order, then stops: nothing queued after the
terminate command is ever written. -/
lemma runServer_drain : ∀ (q : List LogMessage) (errs : List Bool) (sink : List (List Nat))
    (b : List Nat) (extra : List LogMessage),
    (∀ m ∈ q, m.cmd = write) →
    runServer sink errs (q ++ ⟨exit, b⟩ :: extra) = sink ++ q.map (fun m => m.buf) := by
  intro q
  induction q with
  | nil =>
    intro errs sink b extra _
    simp only [List.nil_append, runServer]
    rw [if_neg (by decide)]
    simp
  | cons m rest ih =>
    intro errs sink b extra h
    have hm : m.cmd = write := h m (by simp)
    simp only [List.cons_append, runServer, if_pos hm]
    rw [show rest.append (⟨exit, b⟩ :: extra) = rest ++ ⟨exit, b⟩ :: extra from rfl]
    rw [ih errs.tail (sink ++ [m.buf]) b extra (fun x hx => h x (by simp [hx]))]
    simp [List.append_assoc]

/-- The worker ignores the values of the sink write errors entirely. -/
lemma runServer_errs_irrel : ∀ (q : List LogMessage) (e1 e2 : List Bool)
    (sink : List (List Nat)), runServer sink e1 q = runServer sink e2 q := by
  intro q
  induction q with
  | nil => intro e1 e2 sink; rfl
  | cons m rest ih =>
    intro e1 e2 sink
    simp only [runServer]
    split
    · exact ih e1.tail e2.tail (sink ++ [m.buf])
    · rfl

/-- Cons law of admittedMsgs. -/
lemma admittedMsgs_cons (th fl : Nat) (c : LogCall) (rest : List LogCall) :
    admittedMsgs th fl (c :: rest)
      = if th > c.level then admittedMsgs th fl rest
        else ⟨write, renderLine fl c.level c.t c.file c.line c.msg⟩
          :: admittedMsgs th fl rest := by
  unfold admittedMsgs
  rw [List.filterMap_cons]
  by_cases hg : th > c.level
  · simp only [if_pos hg]
  · simp only [if_neg hg]

/-- Cons law of admittedLines. -/
lemma admittedLines_cons (th fl : Nat) (c : LogCall) (rest : List LogCall) :
    admittedLines th fl (c :: rest)
      = if th > c.level then admittedLines th fl rest
        else renderLine fl c.level c.t c.file c.line c.msg
          :: admittedLines th fl rest := by
  unfold admittedLines
  rw [List.filterMap_cons]
  by_cases hg : th > c.level
  · simp only [if_pos hg]
  · simp only [if_neg hg]

/-- Every command a producer enqueues is a write command. -/
lemma admittedMsgs_cmd (th fl : Nat) : ∀ (calls : List LogCall),
    ∀ m ∈ admittedMsgs th fl calls, m.cmd = write := by
  intro calls
  induction calls with
  | nil =>
    intro m hm
    simp [admittedMsgs] at hm
  | cons c rest ih =>
    intro m hm
    rw [admittedMsgs_cons] at hm
    by_cases hg : th > c.level
    · rw [if_pos hg] at hm
      exact ih m hm
    · rw [if_neg hg] at hm
      rcases List.mem_cons.mp hm with h1 | h2
      · rw [h1]
      · exact ih m h2

/-- The buffers of the enqueued write commands are the admitted lines. -/
lemma admittedMsgs_map (th fl : Nat) : ∀ (calls : List LogCall),
    (admittedMsgs th fl calls).map (fun m => m.buf) = admittedLines th fl calls := by
  intro calls
  induction calls with
  | nil => rfl
  | cons c rest ih =>
    rw [admittedMsgs_cons, admittedLines_cons]
    by_cases hg : th > c.level
    · rw [if_pos hg, if_pos hg]
      exact ih
    · rw [if_neg hg, if_neg hg, List.map_cons, ih]

/-- A single producer on an asynchronous logger only appends its admitted
write commands to the channel, in issue order, touching nothing else. -/
lemma issueAll_async : ∀ (calls : List LogCall) (lg : BasicLogger),
    lg.flags &&& Lblocking = 0 →
    issueAll lg calls = { lg with ch := lg.ch ++ admittedMsgs lg.level lg.flags calls } := by
  intro calls
  induction calls with
  | nil =>
    intro lg h
    simp [issueAll, admittedMsgs]
  | cons c rest ih =>
    intro lg h
    have hstep : logging lg c.level c.t c.file c.line c.msg
        = if lg.level > c.level then lg
          else { lg with ch := lg.ch
              ++ [⟨write, renderLine lg.flags c.level c.t c.file c.line c.msg⟩] } := by
      rw [logging_eq]
      by_cases hg : lg.level > c.level
      · rw [if_pos hg, if_pos hg]
      · rw [if_neg hg, if_neg hg, if_pos h]
    show issueAll (logging lg c.level c.t c.file c.line c.msg) rest = _
    by_cases hg : lg.level > c.level
    · rw [hstep, if_pos hg, ih lg h, admittedMsgs_cons, if_pos hg]
    · rw [hstep, if_neg hg,
        ih { lg with ch := lg.ch
          ++ [⟨write, renderLine lg.flags c.level c.t c.file c.line c.msg⟩] } h,
        admittedMsgs_cons, if_neg hg]
      simp [List.append_assoc]

/-- Claim C1: in asynchronous mode, a single producer issuing calls never
writes to the sink itself, and the Writer Worker, dequeuing the FIFO channel
one command at a time, writes exactly the formatted lines of the admitted
calls in the order the producer issued them. -/
theorem C1_async_single_producer_fifo (lg : BasicLogger) (calls : List LogCall)
    (errs : List Bool) (hasync : lg.flags &&& Lblocking = 0) (hch : lg.ch = []) :
    (issueAll lg calls).sink = lg.sink
    ∧ runServer lg.sink errs (issueAll lg calls).ch
        = lg.sink ++ admittedLines lg.level lg.flags calls := by
  rw [issueAll_async calls lg hasync]
  constructor
  · rfl
  · show runServer lg.sink errs (lg.ch ++ admittedMsgs lg.level lg.flags calls)
        = lg.sink ++ admittedLines lg.level lg.flags calls
    rw [hch, List.nil_append,
      runServer_writes (admittedMsgs lg.level lg.flags calls) errs lg.sink
        (admittedMsgs_cmd lg.level lg.flags calls),
      admittedMsgs_map]

/-- Concrete instantiation of claim C1 at a three-call producer. -/
theorem C1_async_single_producer_fifo_witness :
    (issueAll lgAsyncW callsW).sink = lgAsyncW.sink
    ∧ runServer lgAsyncW.sink [] (issueAll lgAsyncW callsW).ch
        = lgAsyncW.sink ++ admittedLines lgAsyncW.level lgAsyncW.flags callsW :=
  C1_async_single_producer_fifo lgAsyncW callsW [] (by decide) rfl

/-- Claim C2: Close enqueues the terminate command after every pending write
command; the worker then writes every record enqueued before the Close call,
in order, and stops at the terminate command, so nothing enqueued after it is
ever written. -/
theorem C2_close_drains_in_order (lg : BasicLogger) (errs : List Bool)
    (extra : List LogMessage) (hpending : ∀ m ∈ lg.ch, m.cmd = write) :
    runServer lg.sink errs ((Close lg).ch ++ extra)
      = lg.sink ++ lg.ch.map (fun m => m.buf) := by
  show runServer lg.sink errs ((lg.ch ++ [⟨exit, []⟩]) ++ extra)
      = lg.sink ++ lg.ch.map (fun m => m.buf)
  rw [List.append_assoc, List.singleton_append]
  exact runServer_drain lg.ch errs lg.sink [] extra hpending

/-- Concrete instantiation of claim C2 at a logger with two pending writes
and one command racing in after Close. -/
theorem C2_close_drains_in_order_witness :
    runServer lgPendingW.sink [] ((Close lgPendingW).ch ++ [⟨write, [67]⟩])
      = lgPendingW.sink ++ lgPendingW.ch.map (fun m => m.buf) :=
  C2_close_drains_in_order lgPendingW [] [⟨write, [67]⟩] (by decide)

/-- Claim C3: a call below the threshold produces no effect at all: no
timestamp capture, no call-site capture, no formatting, no enqueue, no sink
write, and the logger state is unchanged; a call is admitted if and only if
its level is at least the threshold, under the order
Trace < Debug < Info < Warn < Error. -/
theorem C3_level_gate (lg : BasicLogger) (lvl : Nat) (t : GoTime) (file : List Nat)
    (line : Nat) (s : List Nat) (hbelow : lvl < lg.level) :
    loggingTrace lg lvl t file line s = []
    ∧ logging lg lvl t file line s = lg
    ∧ (∀ lvl2 : Nat, loggingTrace lg lvl2 t file line s ≠ [] ↔ lg.level ≤ lvl2)
    ∧ Trace < Debug ∧ Debug < Info ∧ Info < Warn ∧ Warn < Error := by
  refine ⟨?_, ?_, ?_, by decide, by decide, by decide, by decide⟩
  · simp [loggingTrace, hbelow]
  · simp [logging, hbelow]
  · intro lvl2
    by_cases h : lg.level > lvl2
    · simp only [loggingTrace, if_pos h]
      constructor
      · intro hne
        exact absurd rfl hne
      · intro hle
        omega
    · simp only [loggingTrace, if_neg h]
      constructor
      · intro _
        omega
      · intro _
        simp

/-- Concrete instantiation of claim C3: a Trace call on an Info logger. -/
theorem C3_level_gate_witness :
    loggingTrace lgAsyncW Trace t0 [] 0 (strBytes ("x")) = []
    ∧ logging lgAsyncW Trace t0 [] 0 (strBytes ("x")) = lgAsyncW
    ∧ (∀ lvl2 : Nat, loggingTrace lgAsyncW lvl2 t0 [] 0 (strBytes ("x")) ≠ []
        ↔ lgAsyncW.level ≤ lvl2)
    ∧ Trace < Debug ∧ Debug < Info ∧ Info < Warn ∧ Warn < Error :=
  C3_level_gate lgAsyncW Trace t0 [] 0 (strBytes ("x")) (by decide)

/-- Claim C4 as stated is false: an admitted synchronous call whose rendered
message ends with two newline bytes writes a sink line whose last two bytes
are both newlines, so the emitted line does not end with exactly one
trailing newline. -/
theorem C4_counterexample :
    (logging lgSyncW Info t0 [] 0 (strBytes ("a\n\n"))).sink
        = [renderLine Lblocking Info t0 [] 0 (strBytes ("a\n\n"))]
    ∧ ¬ endsWithOneNewline (renderLine Lblocking Info t0 [] 0 (strBytes ("a\n\n"))) := by
  decide

/-- Claim C4, amended: one newline is appended exactly when the rendered
message is empty or does not end with a newline, and a second one is never
appended; consequently the emitted line ends with exactly one trailing
newline whenever the rendered message does not itself end with two or more
newlines. -/
theorem C4_amended (flags lvl : Nat) (t : GoTime) (file : List Nat) (line : Nat)
    (s : List Nat) (hs : ¬ (s.getLast? = some 10 ∧ s.dropLast.getLast? = some 10)) :
    endsWithOneNewline (renderLine flags lvl t file line s)
    ∧ (s = [] ∨ s.getLast? ≠ some 10 →
        renderLine flags lvl t file line s = formatHeader flags lvl t file line ++ s ++ [10])
    ∧ (s.getLast? = some 10 →
        renderLine flags lvl t file line s = formatHeader flags lvl t file line ++ s) := by
  refine ⟨?_, ?_, ?_⟩
  · unfold renderLine endsWithOneNewline
    by_cases hnl : s.getLast? = some 10
    · have hsne : s ≠ [] := by
        intro hempty
        rw [hempty] at hnl
        simp at hnl
      have hne : ¬ (s = [] ∨ s.getLast? ≠ some 10) := by
        push_neg
        exact ⟨hsne, hnl⟩
      rw [if_neg hne]
      constructor
      · exact getLast?_append_some _ s 10 hnl
      · rw [List.dropLast_append_of_ne_nil _ hsne]
        apply getLast?_append_ne_nl
        · exact formatHeader_not_nl flags lvl t file line
        · intro hB
          exact hs ⟨hnl, hB⟩
    · rw [if_pos (Or.inr hnl)]
      constructor
      · rw [List.getLast?_concat]
      · rw [List.dropLast_concat]
        apply getLast?_append_ne_nl
        · exact formatHeader_not_nl flags lvl t file line
        · exact hnl
  · intro hc
    unfold renderLine
    rw [if_pos hc]
  · intro hc
    have hne : ¬ (s = [] ∨ s.getLast? ≠ some 10) := by
      push_neg
      refine ⟨?_, hc⟩
      intro hempty
      rw [hempty] at hc
      simp at hc
    unfold renderLine
    rw [if_neg hne]

/-- Concrete instantiation of amended claim C4 at a plain two-byte message. -/
theorem C4_amended_witness :
    endsWithOneNewline (renderLine 0 Info t0 [] 0 (strBytes ("hi")))
    ∧ (strBytes ("hi") = [] ∨ (strBytes ("hi")).getLast? ≠ some 10 →
        renderLine 0 Info t0 [] 0 (strBytes ("hi"))
          = formatHeader 0 Info t0 [] 0 ++ strBytes ("hi") ++ [10])
    ∧ ((strBytes ("hi")).getLast? = some 10 →
        renderLine 0 Info t0 [] 0 (strBytes ("hi"))
          = formatHeader 0 Info t0 [] 0 ++ strBytes ("hi")) :=
  C4_amended 0 Info t0 [] 0 (strBytes ("hi")) (by decide)

/-- Claim C5 as stated is false: with only the microseconds flag set and the
time flag unset, the header still contains the full HH:MM:SS clock field,
so the time field is not emitted if and only if the time flag is set. -/
theorem C5_counterexample :
    Lmicroseconds &&& Ltime = 0
    ∧ formatHeader Lmicroseconds Info t0 [] 0
        = strBytes ("[INFO]  ") ++ strBytes ("03:04:05.000006 ")
    ∧ formatHeader Lmicroseconds Info t0 [] 0 ≠ levelStringMap Info := by
  decide

/-- Claim C5, amended: the date field is emitted if and only if the date
flag is set; the HH:MM:SS clock field is emitted if and only if the time
flag or the microseconds flag is set, with the six-digit microsecond suffix
exactly when the microseconds flag is set; the timestamp is converted to UTC
before formatting when the UTC flag is set. -/
theorem C5_amended (flags lvl : Nat) (t : GoTime) (file : List Nat) (line : Nat) :
    formatHeader flags lvl t file line
      = levelStringMap lvl
        ++ (if flags &&& Ldate ≠ 0 then dateField (effDT flags t) else [])
        ++ (if flags &&& (Ltime ||| Lmicroseconds) ≠ 0 then
              clockField flags (effDT flags t)
            else [])
        ++ fileField flags file line :=
  formatHeader_spec flags lvl t file line

/-- Claim C6: with the date, time and microseconds flags set, the header
after the level tag is exactly the fixed layout YYYY/MM/DD HH:MM:SS.dddddd
followed by a space, every numeric field zero-padded to its fixed width. -/
theorem C6_fixed_datetime_layout (lvl : Nat) (t : GoTime) (file : List Nat) (line : Nat)
    (hy : t.cur.year ≤ 9999) (hmo : t.cur.month ≤ 99) (hd : t.cur.day ≤ 99)
    (hh : t.cur.hour ≤ 99) (hmi : t.cur.minute ≤ 99) (hsec : t.cur.second ≤ 99)
    (hns : t.cur.nanosecond ≤ 999999999) :
    formatHeader (Ldate ||| Ltime ||| Lmicroseconds) lvl t file line
      = levelStringMap lvl
        ++ padDec 4 t.cur.year ++ [47] ++ padDec 2 t.cur.month ++ [47]
        ++ padDec 2 t.cur.day ++ [32]
        ++ padDec 2 t.cur.hour ++ [58] ++ padDec 2 t.cur.minute ++ [58]
        ++ padDec 2 t.cur.second ++ [46] ++ padDec 6 (t.cur.nanosecond / 1000) ++ [32]
    ∧ (padDec 4 t.cur.year).length = 4
    ∧ (padDec 2 t.cur.month).length = 2
    ∧ (padDec 2 t.cur.day).length = 2
    ∧ (padDec 2 t.cur.hour).length = 2
    ∧ (padDec 2 t.cur.minute).length = 2
    ∧ (padDec 2 t.cur.second).length = 2
    ∧ (padDec 6 (t.cur.nanosecond / 1000)).length = 6 := by
  have hwidth : ∀ (w i : Nat), 1 ≤ w → i < 10 ^ w → (padDec w i).length = w := by
    intro w i h1 h2
    rw [padDec_length]
    have h3 := decRep_length_le w h1 i h2
    omega
  have hp4 : (10 : Nat) ^ 4 = 10000 := by norm_num
  have hp2 : (10 : Nat) ^ 2 = 100 := by norm_num
  have hp6 : (10 : Nat) ^ 6 = 1000000 := by norm_num
  refine ⟨?_, ?_, ?_, ?_, ?_, ?_, ?_, ?_⟩
  · rw [formatHeader_spec]
    rw [if_pos (show (Ldate ||| Ltime ||| Lmicroseconds) &&& Ldate ≠ 0 from by decide)]
    rw [if_pos (show (Ldate ||| Ltime ||| Lmicroseconds) &&& (Ltime ||| Lmicroseconds) ≠ 0
      from by decide)]
    have heff : effDT (Ldate ||| Ltime ||| Lmicroseconds) t = t.cur := by
      unfold effDT
      rw [if_neg (by decide)]
    have hFF : fileField (Ldate ||| Ltime ||| Lmicroseconds) file line = [] := by
      unfold fileField
      rw [if_neg (by decide)]
    rw [heff, hFF, List.append_nil]
    unfold dateField clockField
    rw [if_pos (show (Ldate ||| Ltime ||| Lmicroseconds) &&& Lmicroseconds ≠ 0 from by decide)]
    simp [List.append_assoc]
  · exact hwidth 4 _ (by omega) (by omega)
  · exact hwidth 2 _ (by omega) (by omega)
  · exact hwidth 2 _ (by omega) (by omega)
  · exact hwidth 2 _ (by omega) (by omega)
  · exact hwidth 2 _ (by omega) (by omega)
  · exact hwidth 2 _ (by omega) (by omega)
  · refine hwidth 6 _ (by omega) ?_
    have hdivb : t.cur.nanosecond / 1000 ≤ 999999 := by omega
    omega

/-- Concrete instantiation of claim C6 at a fixed timestamp. -/
theorem C6_fixed_datetime_layout_witness :
    formatHeader (Ldate ||| Ltime ||| Lmicroseconds) Info t0 [] 0
      = levelStringMap Info
        ++ padDec 4 t0.cur.year ++ [47] ++ padDec 2 t0.cur.month ++ [47]
        ++ padDec 2 t0.cur.day ++ [32]
        ++ padDec 2 t0.cur.hour ++ [58] ++ padDec 2 t0.cur.minute ++ [58]
        ++ padDec 2 t0.cur.second ++ [46] ++ padDec 6 (t0.cur.nanosecond / 1000) ++ [32]
    ∧ (padDec 4 t0.cur.year).length = 4
    ∧ (padDec 2 t0.cur.month).length = 2
    ∧ (padDec 2 t0.cur.day).length = 2
    ∧ (padDec 2 t0.cur.hour).length = 2
    ∧ (padDec 2 t0.cur.minute).length = 2
    ∧ (padDec 2 t0.cur.second).length = 2
    ∧ (padDec 6 (t0.cur.nanosecond / 1000)).length = 6 :=
  C6_fixed_datetime_layout Info t0 [] 0 (by decide) (by decide) (by decide)
    (by decide) (by decide) (by decide) (by decide)

/-- Claim C7 as stated is false: with the short-file flag set, a path whose
only slash is at index 0 is emitted unchanged rather than stripped to the
suffix after the last slash, because the source scan never inspects index
0. -/
theorem C7_counterexample :
    Lshortfile &&& Lshortfile ≠ 0
    ∧ formatHeader Lshortfile Info t0 (strBytes ("/a")) 7
        = strBytes ("[INFO]  ") ++ strBytes ("/a") ++ strBytes (":7: ")
    ∧ basenameClaim (strBytes ("/a")) = strBytes ("a")
    ∧ formatHeader Lshortfile Info t0 (strBytes ("/a")) 7
        ≠ strBytes ("[INFO]  ") ++ basenameClaim (strBytes ("/a")) ++ strBytes (":7: ") := by
  decide

/-- Claim C7, amended: when a call-site flag is set the header ends with the
source path followed by a colon, the unpadded decimal line number, a colon
and a space; under the short-file flag the path is stripped to the suffix
after the last slash occurring at a positive index, and a path whose only
slash is at index 0, or which has no slash, is left unchanged. -/
theorem C7_amended (flags lvl : Nat) (t : GoTime) (file : List Nat) (line : Nat)
    (hfile : flags &&& (Lshortfile ||| Llongfile) ≠ 0) :
    formatHeader flags lvl t file line
      = levelStringMap lvl
        ++ (if flags &&& Ldate ≠ 0 then dateField (effDT flags t) else [])
        ++ (if flags &&& (Ltime ||| Lmicroseconds) ≠ 0 then
              clockField flags (effDT flags t)
            else [])
        ++ (if flags &&& Lshortfile ≠ 0 then specShort file else file)
        ++ [58] ++ decRep line ++ strBytes (": ")
    ∧ (∀ (c : Nat) (rest : List Nat), (47 : Nat) ∈ rest →
        specShort (c :: rest) = afterLastSlash (c :: rest))
    ∧ (∀ (c : Nat) (rest : List Nat), (47 : Nat) ∉ rest →
        specShort (c :: rest) = c :: rest) := by
  refine ⟨?_, ?_, ?_⟩
  · rw [formatHeader_spec]
    unfold fileField
    rw [if_pos hfile]
    simp [List.append_assoc]
  · intro c rest h
    rw [specShort_cons, if_pos h]
  · intro c rest h
    rw [specShort_cons, if_neg h]

/-- Concrete instantiation of amended claim C7 with only the short-file flag
set. -/
theorem C7_amended_witness :
    formatHeader Lshortfile Info t0 (strBytes ("a/b")) 7
      = levelStringMap Info
        ++ (if Lshortfile &&& Ldate ≠ 0 then dateField (effDT Lshortfile t0) else [])
        ++ (if Lshortfile &&& (Ltime ||| Lmicroseconds) ≠ 0 then
              clockField Lshortfile (effDT Lshortfile t0)
            else [])
        ++ (if Lshortfile &&& Lshortfile ≠ 0 then specShort (strBytes ("a/b"))
            else strBytes ("a/b"))
        ++ [58] ++ decRep 7 ++ strBytes (": ")
    ∧ (∀ (c : Nat) (rest : List Nat), (47 : Nat) ∈ rest →
        specShort (c :: rest) = afterLastSlash (c :: rest))
    ∧ (∀ (c : Nat) (rest : List Nat), (47 : Nat) ∉ rest →
        specShort (c :: rest) = c :: rest) :=
  C7_amended Lshortfile Info t0 (strBytes ("a/b")) 7 (by decide)

/-- Claim C8 as stated is false: in synchronous mode Close does perform a
channel operation, sending the terminate command into the buffered channel
even though no worker exists to consume it. -/
theorem C8_counterexample :
    lgSyncW.flags &&& Lblocking ≠ 0 ∧ (Close lgSyncW).ch ≠ lgSyncW.ch := by
  decide

/-- Claim C8, amended: in synchronous mode Close writes nothing to the sink
and leaves the sink contents, the open state of the sink handle, the error
oracle, the threshold and the flags unchanged; its only effect is one
channel send, enqueueing a terminate command that no worker will consume,
and it does not release the sink. -/
theorem C8_amended (lg : BasicLogger) (hsync : lg.flags &&& Lblocking ≠ 0) :
    (Close lg).sink = lg.sink
    ∧ (Close lg).sinkOpen = lg.sinkOpen
    ∧ (Close lg).sinkErrs = lg.sinkErrs
    ∧ (Close lg).level = lg.level
    ∧ (Close lg).flags = lg.flags
    ∧ (Close lg).ch = lg.ch ++ [⟨exit, []⟩] :=
  ⟨rfl, rfl, rfl, rfl, rfl, rfl⟩

/-- Concrete instantiation of amended claim C8 at a synchronous logger. -/
theorem C8_amended_witness :
    (Close lgSyncW).sink = lgSyncW.sink
    ∧ (Close lgSyncW).sinkOpen = lgSyncW.sinkOpen
    ∧ (Close lgSyncW).sinkErrs = lgSyncW.sinkErrs
    ∧ (Close lgSyncW).level = lgSyncW.level
    ∧ (Close lgSyncW).flags = lgSyncW.flags
    ∧ (Close lgSyncW).ch = lgSyncW.ch ++ [⟨exit, []⟩] :=
  C8_amended lgSyncW (by decide)

/-- Claim C9: construction returns the open error and no logger exactly when
the destination cannot be opened, with a single open attempt; once
constructed, a leveled call returns no error and neither the lines reaching
the sink nor the queued commands depend in any way on the error results the
sink reports, which both the synchronous path and the worker discard. -/
theorem C9_construction_and_write_errors :
    (∀ level bufferSize flags : Nat,
        NewLogger none level bufferSize flags
          = Except.error (strBytes ("file creation fail")))
    ∧ (∀ (errs : List Bool) (level bufferSize flags : Nat),
        NewLogger (some errs) level bufferSize flags
          = Except.ok
              { level := level, flags := flags, sink := [], sinkErrs := errs,
                sinkOpen := true, ch := [] })
    ∧ (∀ (lg : BasicLogger) (e1 e2 : List Bool) (lvl : Nat) (t : GoTime)
        (file : List Nat) (line : Nat) (s : List Nat),
        (logging { lg with sinkErrs := e1 } lvl t file line s).sink
          = (logging { lg with sinkErrs := e2 } lvl t file line s).sink
        ∧ (logging { lg with sinkErrs := e1 } lvl t file line s).ch
          = (logging { lg with sinkErrs := e2 } lvl t file line s).ch)
    ∧ (∀ (sink : List (List Nat)) (e1 e2 : List Bool) (q : List LogMessage),
        runServer sink e1 q = runServer sink e2 q) := by
  refine ⟨fun _ _ _ => rfl, fun _ _ _ _ => rfl, ?_,
    fun sink e1 e2 q => runServer_errs_irrel q e1 e2 sink⟩
  intro lg e1 e2 lvl t file line s
  simp only [logging_eq]
  by_cases hg : lg.level > lvl
  · simp [hg]
  · by_cases hb : lg.flags &&& Lblocking = 0
    · simp [hg, hb]
    · simp [hg, hb]

/-- Claim C10: for every 64-bit non-negative integer and width at most 20,
itoa terminates within the 20-byte scratch array, appending exactly
max(digits, width) bytes, the decimal digits left-padded with zero digits to
the width; and formatHeader only ever invokes itoa at widths 4, 2, 6 and
-1. -/
theorem C10_itoa_bounds (i : Nat) (wid : Int) (hi : i < 2 ^ 63) (hw : wid ≤ 20) :
    ((itoa i wid).length = max (decRep i).length wid.toNat
      ∧ (itoa i wid).length ≤ 20
      ∧ itoa i wid = List.replicate (wid.toNat - (decRep i).length) 48 ++ decRep i)
    ∧ (∀ flags : Nat, ∀ w ∈ itoaWidths flags, w = 4 ∨ w = 2 ∨ w = 6 ∨ w = -1) := by
  have hpad := itoa_eq_pad (i + wid.toNat) i wid le_rfl
  have h19 : (decRep i).length ≤ 19 := by
    apply decRep_length_le 19 (by omega)
    have hp : (2 : Nat) ^ 63 ≤ 10 ^ 19 := by norm_num
    omega
  have hlen : (itoa i wid).length = max (decRep i).length wid.toNat := by
    rw [hpad]
    simp only [List.length_append, List.length_replicate]
    omega
  refine ⟨⟨hlen, ?_, hpad⟩, ?_⟩
  · rw [hlen]
    have h20 : wid.toNat ≤ 20 := by omega
    omega
  · intro flags w hwmem
    by_cases c1 : flags &&& (Ldate ||| Ltime ||| Lmicroseconds) = 0 <;>
    by_cases c2 : flags &&& Ldate = 0 <;>
    by_cases c3 : flags &&& (Ltime ||| Lmicroseconds) = 0 <;>
    by_cases c4 : flags &&& Lmicroseconds = 0 <;>
    by_cases c5 : flags &&& (Lshortfile ||| Llongfile) = 0 <;>
    simp [itoaWidths, c1, c2, c3, c4, c5] at hwmem <;>
    tauto

/-- Concrete instantiation of claim C10 at a five-digit number and width
six. -/
theorem C10_itoa_bounds_witness :
    ((itoa 12345 6).length = max (decRep 12345).length (6 : Int).toNat
      ∧ (itoa 12345 6).length ≤ 20
      ∧ itoa 12345 6 = List.replicate ((6 : Int).toNat - (decRep 12345).length) 48
          ++ decRep 12345)
    ∧ (∀ flags : Nat, ∀ w ∈ itoaWidths flags, w = 4 ∨ w = 2 ∨ w = 6 ∨ w = -1) :=
  C10_itoa_bounds 12345 6 (by norm_num) (by norm_num)

end NbLogger
